import Mathlib

/-!
Verification of the region model checker of `SparseDtmcRegionModelChecker`
(parametric-DTMC region checking).  The repository ships only the class
header (declarations and documentation comments); the method bodies are not
part of the sources, so every operation below is modelled from the
specification's description of that operation, faithful to its words, and
the claims are settled against these models.
-/

namespace StormRegion

/-- Modelled from the spec: the possible results for a single region
(the verdict lattice of the region model; the implementation enum
`RegionCheckResult` is declared in the header). -/
inductive RegionCheckResult where
  | UNKNOWN
  | EXISTSSAT
  | EXISTSVIOLATED
  | EXISTSBOTH
  | ALLSAT
  | ALLVIOLATED
  deriving DecidableEq, Repr

/-- A concrete parameter valuation: an association list mapping each
parameter (identified by a natural number) to an exact rational
coefficient, in the order of the region's parameter list. -/
abbrev Valuation := List (Nat × ℚ)

/-- Modelled from the spec: the `ParameterRegion` data model (the
implementation's field bodies are not in the sources).  A region owns, per
parameter, a lower and an upper coefficient bound, and the mutable
verification state: the verdict and the optional sat/violated witness
points. -/
structure ParameterRegion where
  vars : List Nat
  lowerBounds : Nat → ℚ
  upperBounds : Nat → ℚ
  checkResult : RegionCheckResult
  satPoint : Option Valuation
  violatedPoint : Option Valuation

/-- The error message raised for a malformed region. -/
def regionBoundsErrorMsg : String := "lower bound is above upper bound"

/-- Modelled from the spec: the `ParameterRegion` constructor (its body is
not in the sources).  Construction requires, per parameter, lower bound at
most upper bound; a malformed region is a fatal construction error raised
synchronously to the caller, modelled as `Except.error`. -/
def mkParameterRegion (vars : List Nat) (lowerBounds upperBounds : Nat → ℚ) :
    Except String ParameterRegion :=
  if vars.all fun p => decide (lowerBounds p ≤ upperBounds p) then
    .ok { vars := vars, lowerBounds := lowerBounds, upperBounds := upperBounds,
          checkResult := .UNKNOWN, satPoint := none, violatedPoint := none }
  else
    .error regionBoundsErrorMsg

/-- Modelled from the spec: `ParameterRegion::setSatPoint` (body not in the
sources).  Records a sat witness; an idempotent no-op when a sat point is
already recorded (the first witness found is kept). -/
def setSatPoint (r : ParameterRegion) (p : Valuation) : ParameterRegion :=
  if r.satPoint.isSome then r else { r with satPoint := some p }

/-- Modelled from the spec: `ParameterRegion::setViolatedPoint` (body not in
the sources).  Records a violated witness; an idempotent no-op when a
violated point is already recorded (the first witness found is kept). -/
def setViolatedPoint (r : ParameterRegion) (p : Valuation) : ParameterRegion :=
  if r.violatedPoint.isSome then r else { r with violatedPoint := some p }

/-- Modelled from the spec: `ParameterRegion::getVerticesOfRegion` (body not
in the sources; the header documents the enumeration order).  Returns all
combinations of lower and upper bounds of the given variables: the first
entry maps every variable to its lower bound, the second entry flips only
the first variable to its upper bound, and so on in binary-counting order;
the last entry maps every variable to its upper bound.  For the empty
variable list the single empty valuation is returned. -/
def getVerticesOfRegion (lowerBounds upperBounds : Nat → ℚ) :
    List Nat → List Valuation
  | [] => [[]]
  | v :: vs =>
      (getVerticesOfRegion lowerBounds upperBounds vs).flatMap fun w =>
        [(v, lowerBounds v) :: w, (v, upperBounds v) :: w]

theorem getVerticesOfRegion_length (lb ub : Nat → ℚ) (vs : List Nat) :
    (getVerticesOfRegion lb ub vs).length = 2 ^ vs.length := by
  induction vs with
  | nil => rfl
  | cons v vs ih =>
      have key : ∀ L : List Valuation,
          (L.flatMap fun w => [(v, lb v) :: w, (v, ub v) :: w]).length = 2 * L.length := by
        intro L
        induction L with
        | nil => rfl
        | cons w ws ihL =>
            simp only [List.flatMap_cons, List.length_append, List.length_cons, ihL]
            simp only [List.length_cons, List.length_nil]
            omega
      rw [getVerticesOfRegion, key, ih, List.length_cons, pow_succ]
      omega

theorem getVerticesOfRegion_head (lb ub : Nat → ℚ) (vs : List Nat) :
    (getVerticesOfRegion lb ub vs).head? = some (vs.map fun p => (p, lb p)) := by
  induction vs with
  | nil => rfl
  | cons v vs ih =>
      rw [getVerticesOfRegion]
      cases hV : getVerticesOfRegion lb ub vs with
      | nil => rw [hV] at ih; simp at ih
      | cons w ws =>
          rw [hV] at ih
          simp only [List.head?_cons, Option.some.injEq] at ih
          simp [List.flatMap_cons, ih]

theorem getVerticesOfRegion_shape (lb ub : Nat → ℚ) (vs : List Nat) :
    ∀ w ∈ getVerticesOfRegion lb ub vs,
      w.map Prod.fst = vs ∧ ∀ pr ∈ w, pr.2 = lb pr.1 ∨ pr.2 = ub pr.1 := by
  induction vs with
  | nil =>
      intro w hw
      simp only [getVerticesOfRegion, List.mem_singleton] at hw
      subst hw; simp
  | cons v vs ih =>
      intro w hw
      rw [getVerticesOfRegion] at hw
      simp only [List.mem_flatMap, List.mem_cons, List.mem_singleton,
        List.not_mem_nil, or_false] at hw
      obtain ⟨w', hw', hcase⟩ := hw
      obtain ⟨hmap, hvals⟩ := ih w' hw'
      rcases hcase with rfl | rfl <;> refine ⟨by simp [hmap], ?_⟩ <;>
        · intro pr hpr
          rcases List.mem_cons.1 hpr with rfl | hpr'
          · simp
          · exact hvals pr hpr'

theorem getVerticesOfRegion_nodup (lb ub : Nat → ℚ) (vs : List Nat)
    (h : ∀ v ∈ vs, lb v < ub v) : (getVerticesOfRegion lb ub vs).Nodup := by
  induction vs with
  | nil => simp [getVerticesOfRegion]
  | cons v vs ih =>
      have hne : lb v ≠ ub v := ne_of_lt (h v (List.mem_cons_self v vs))
      have hnd := ih fun x hx => h x (List.mem_cons_of_mem v hx)
      rw [getVerticesOfRegion, List.nodup_flatMap]
      constructor
      · intro w _
        refine List.nodup_cons.2 ⟨?_, List.nodup_singleton _⟩
        simp only [List.mem_singleton]
        intro hEq
        simp only [List.cons.injEq, Prod.mk.injEq] at hEq
        exact hne hEq.1.2
      · refine hnd.imp fun {w w'} hww => ?_
        intro x hx hx'
        simp only [Function.onFun, List.mem_cons, List.mem_singleton,
          List.not_mem_nil, or_false] at hx hx'
        rcases hx with rfl | rfl <;> rcases hx' with hEq | hEq <;>
          simp only [List.cons.injEq, Prod.mk.injEq] at hEq
        · exact hww hEq.2
        · exact hne hEq.1.2
        · exact hne hEq.1.2.symm
        · exact hww hEq.2

/-- C2 (amended): for every region and every finite subset of its
parameters of size `n`, `getVerticesOfRegion` returns exactly `2^n`
valuations, each mapping every parameter of the subset to either its lower
or its upper bound, with the all-lower-bounds valuation first; for the
empty subset it returns exactly one valuation, the empty map.  The `2^n`
valuations are pairwise distinct provided every parameter of the subset
has its lower bound strictly below its upper bound (a region may fix a
parameter with equal bounds, and then they are not distinct). -/
theorem getVerticesOfRegion_correct (lb ub : Nat → ℚ) (vs : List Nat) :
    (getVerticesOfRegion lb ub vs).length = 2 ^ vs.length ∧
    (getVerticesOfRegion lb ub vs).head? = some (vs.map fun p => (p, lb p)) ∧
    (∀ w ∈ getVerticesOfRegion lb ub vs,
        w.map Prod.fst = vs ∧ ∀ pr ∈ w, pr.2 = lb pr.1 ∨ pr.2 = ub pr.1) ∧
    getVerticesOfRegion lb ub ([] : List Nat) = [[]] ∧
    ((∀ v ∈ vs, lb v < ub v) → (getVerticesOfRegion lb ub vs).Nodup) :=
  ⟨getVerticesOfRegion_length lb ub vs, getVerticesOfRegion_head lb ub vs,
   getVerticesOfRegion_shape lb ub vs, rfl, getVerticesOfRegion_nodup lb ub vs⟩

/-- Witness for C2 (amended) at the concrete subset `[0, 1]` with bounds
`0 < 1` for every parameter. -/
theorem getVerticesOfRegion_correct_witness :
    (getVerticesOfRegion (fun _ => (0 : ℚ)) (fun _ => (1 : ℚ)) [0, 1]).length = 2 ^ 2 ∧
    (getVerticesOfRegion (fun _ => (0 : ℚ)) (fun _ => (1 : ℚ)) [0, 1]).head? =
        some ([0, 1].map fun p => (p, (0 : ℚ))) ∧
    (∀ w ∈ getVerticesOfRegion (fun _ => (0 : ℚ)) (fun _ => (1 : ℚ)) [0, 1],
        w.map Prod.fst = [0, 1] ∧
          ∀ pr ∈ w, pr.2 = (0 : ℚ) ∨ pr.2 = (1 : ℚ)) ∧
    (getVerticesOfRegion (fun _ => (0 : ℚ)) (fun _ => (1 : ℚ)) [0, 1]).Nodup :=
  ⟨(getVerticesOfRegion_correct (fun _ => (0 : ℚ)) (fun _ => (1 : ℚ)) [0, 1]).1,
   (getVerticesOfRegion_correct (fun _ => (0 : ℚ)) (fun _ => (1 : ℚ)) [0, 1]).2.1,
   (getVerticesOfRegion_correct (fun _ => (0 : ℚ)) (fun _ => (1 : ℚ)) [0, 1]).2.2.1,
   (getVerticesOfRegion_correct (fun _ => (0 : ℚ)) (fun _ => (1 : ℚ)) [0, 1]).2.2.2.2
      (by decide)⟩

/-- Counterexample to C2 as stated: a legal region may fix a parameter by
giving it equal lower and upper bounds, and then the `2^n` valuations
returned by `getVerticesOfRegion` are not distinct (here the parameter is
fixed at `1` and both returned valuations are the same map). -/
theorem getVerticesOfRegion_not_distinct_counterexample :
    (getVerticesOfRegion (fun _ => (1 : ℚ)) (fun _ => (1 : ℚ)) [0]).length = 2 ^ 1 ∧
    ¬ (getVerticesOfRegion (fun _ => (1 : ℚ)) (fun _ => (1 : ℚ)) [0]).Nodup := by
  constructor
  · rfl
  · decide

/-- C9: constructing a `ParameterRegion` from bound maps in which some
parameter's upper bound is strictly below its lower bound raises the fatal
construction error synchronously to the caller, and no usable region state
results. -/
theorem mkParameterRegion_malformed_fatal (vars : List Nat) (lb ub : Nat → ℚ)
    (h : ∃ p ∈ vars, ub p < lb p) :
    mkParameterRegion vars lb ub = .error regionBoundsErrorMsg ∧
    ∀ r, mkParameterRegion vars lb ub ≠ .ok r := by
  obtain ⟨p, hp, hlt⟩ := h
  have herr : mkParameterRegion vars lb ub = .error regionBoundsErrorMsg := by
    rw [mkParameterRegion, if_neg]
    intro hall
    rw [List.all_eq_true] at hall
    exact absurd (of_decide_eq_true (hall p hp)) (not_le.2 hlt)
  exact ⟨herr, fun r hok => by rw [herr] at hok; exact Except.noConfusion hok⟩

/-- Witness for C9: a one-parameter region with upper bound `0` strictly
below lower bound `1` is rejected at construction. -/
theorem mkParameterRegion_malformed_fatal_witness :
    (∃ p ∈ [0], (fun _ => (0 : ℚ)) p < (fun _ => (1 : ℚ)) p) ∧
    (mkParameterRegion [0] (fun _ => (1 : ℚ)) (fun _ => (0 : ℚ)) =
        .error regionBoundsErrorMsg ∧
     ∀ r, mkParameterRegion [0] (fun _ => (1 : ℚ)) (fun _ => (0 : ℚ)) ≠ .ok r) :=
  ⟨by decide, mkParameterRegion_malformed_fatal _ _ _ (by decide)⟩

/-- C5: for a region that already has a sat witness recorded, `setSatPoint`
is a no-op leaving the stored point unchanged, and symmetrically
`setViolatedPoint` for a recorded violated witness: the first witness point
of each kind is kept forever. -/
theorem setPoint_first_witness_kept (r s : ParameterRegion) (p q pv qv : Valuation)
    (hsat : r.satPoint = some q) (hvio : s.violatedPoint = some qv) :
    setSatPoint r p = r ∧ setViolatedPoint s pv = s := by
  constructor
  · rw [setSatPoint, if_pos (by rw [hsat]; rfl)]
  · rw [setViolatedPoint, if_pos (by rw [hvio]; rfl)]

/-- Witness for C5 at a concrete region with both witness points present. -/
theorem setPoint_first_witness_kept_witness :
    (ParameterRegion.satPoint
        ⟨[], fun _ => 0, fun _ => 0, .EXISTSBOTH, some [], some [(0, 1)]⟩ = some []) ∧
    (ParameterRegion.violatedPoint
        ⟨[], fun _ => 0, fun _ => 0, .EXISTSBOTH, some [], some [(0, 1)]⟩ = some [(0, 1)]) ∧
    (setSatPoint ⟨[], fun _ => 0, fun _ => 0, .EXISTSBOTH, some [], some [(0, 1)]⟩ [(5, 7)] =
        ⟨[], fun _ => 0, fun _ => 0, .EXISTSBOTH, some [], some [(0, 1)]⟩ ∧
     setViolatedPoint ⟨[], fun _ => 0, fun _ => 0, .EXISTSBOTH, some [], some [(0, 1)]⟩ [(5, 7)] =
        ⟨[], fun _ => 0, fun _ => 0, .EXISTSBOTH, some [], some [(0, 1)]⟩) :=
  ⟨rfl, rfl, setPoint_first_witness_kept _ _ _ _ _ _ rfl rfl⟩

/-- Modelled from the spec: the specified property, a single reachability
probability threshold with a comparison operator; modelled for the
lower-bounded comparisons (at least / strictly above the threshold), the
case the spec's normative description of the approximation tier and its
concrete scenario use. -/
structure Property where
  threshold : ℚ
  strict : Bool

/-- Modelled from the spec: `valueIsInBoundOfFormula` (body not in the
sources): whether a probability value satisfies the property's
threshold. -/
def valueIsInBoundOfFormula (prop : Property) (value : ℚ) : Bool :=
  if prop.strict then decide (prop.threshold < value) else decide (prop.threshold ≤ value)

/-- Modelled from the spec: the verdict-lattice update after the witness
points changed: both witnesses present give `EXISTSBOTH`, a single witness
gives the corresponding one-sided verdict, and without any witness the
verdict is unchanged. -/
def verdictFromWitnesses (old : RegionCheckResult) (sat vio : Bool) : RegionCheckResult :=
  match sat, vio with
  | true, true => .EXISTSBOTH
  | true, false => .EXISTSSAT
  | false, true => .EXISTSVIOLATED
  | false, false => old

/-- Modelled from the spec: `checkPoint` (body not in the sources).
Evaluates the probability at the given point (the evaluation itself — via
the reachability function or an instantiated sampling model — is the
oracle `probAt`), compares it against the property's threshold, records
the point as a sat or violated witness if that kind is not yet known,
updates the verdict accordingly, and returns whether the verdict has
become `EXISTSBOTH`. -/
def checkPoint (probAt : Valuation → ℚ) (prop : Property) (r : ParameterRegion)
    (point : Valuation) : ParameterRegion × Bool :=
  let r' := if valueIsInBoundOfFormula prop (probAt point) then setSatPoint r point
            else setViolatedPoint r point
  let r'' := { r' with
    checkResult := verdictFromWitnesses r'.checkResult r'.satPoint.isSome r'.violatedPoint.isSome }
  (r'', decide (r''.checkResult = .EXISTSBOTH))

/-- Modelled from the spec: the fixed, deterministic candidate points of
the sampling tier — the `2^n` region vertices plus the region's
midpoint. -/
def samplePointsOf (r : ParameterRegion) : List Valuation :=
  getVerticesOfRegion r.lowerBounds r.upperBounds r.vars ++
    [r.vars.map fun p => (p, (r.lowerBounds p + r.upperBounds p) / 2)]

/-- Modelled from the spec: the loop of `checkSamplePoints`, stopping early
as soon as both witness kinds are found. -/
def checkSamplePointsGo (probAt : Valuation → ℚ) (prop : Property) :
    List Valuation → ParameterRegion → ParameterRegion × Bool
  | [], r => (r, r.satPoint.isSome && r.violatedPoint.isSome)
  | pt :: pts, r =>
      let s := checkPoint probAt prop r pt
      if s.2 then (s.1, true) else checkSamplePointsGo probAt prop pts s.1

/-- Modelled from the spec: `checkSamplePoints` (body not in the sources).
Evaluates `checkPoint` over the region's vertices and midpoint, stopping
early as soon as both witness kinds are found; returns whether a sat as
well as a violated point has been found. -/
def checkSamplePoints (probAt : Valuation → ℚ) (prop : Property) (r : ParameterRegion) :
    ParameterRegion × Bool :=
  checkSamplePointsGo probAt prop (samplePointsOf r) r

theorem setSatPoint_satPoint_isSome (r : ParameterRegion) (p : Valuation) :
    (setSatPoint r p).satPoint.isSome = true := by
  rw [setSatPoint]; split <;> simp_all

theorem setViolatedPoint_violatedPoint_isSome (r : ParameterRegion) (p : Valuation) :
    (setViolatedPoint r p).violatedPoint.isSome = true := by
  rw [setViolatedPoint]; split <;> simp_all

/-- A region just returned by `checkPoint` carries a verdict among the
three existential ones. -/
theorem checkPoint_verdict (probAt : Valuation → ℚ) (prop : Property)
    (r : ParameterRegion) (pt : Valuation) :
    (checkPoint probAt prop r pt).1.checkResult = .EXISTSSAT ∨
    (checkPoint probAt prop r pt).1.checkResult = .EXISTSVIOLATED ∨
    (checkPoint probAt prop r pt).1.checkResult = .EXISTSBOTH := by
  rw [checkPoint]
  split
  · have hs := setSatPoint_satPoint_isSome r pt
    rw [verdictFromWitnesses.eq_def]
    split <;> simp_all
  · have hv := setViolatedPoint_violatedPoint_isSome r pt
    rw [verdictFromWitnesses.eq_def]
    split <;> simp_all

theorem checkSamplePointsGo_verdict (probAt : Valuation → ℚ) (prop : Property) :
    ∀ (pts : List Valuation) (r : ParameterRegion), pts ≠ [] →
      (checkSamplePointsGo probAt prop pts r).1.checkResult = .EXISTSSAT ∨
      (checkSamplePointsGo probAt prop pts r).1.checkResult = .EXISTSVIOLATED ∨
      (checkSamplePointsGo probAt prop pts r).1.checkResult = .EXISTSBOTH := by
  intro pts
  induction pts with
  | nil => intro r h; exact absurd rfl h
  | cons pt pts ih =>
      intro r _
      rw [checkSamplePointsGo]
      split
      · exact checkPoint_verdict probAt prop r pt
      · cases pts with
        | nil =>
            rw [checkSamplePointsGo]
            exact checkPoint_verdict probAt prop r pt
        | cons pt' pts' => exact ih _ (by simp)

/-- C4: the sampling tier never sets the region's verdict to `ALLSAT` or
`ALLVIOLATED`: after `checkSamplePoints` (and after each `checkPoint` it
performs) the region's verdict is one of `EXISTSSAT`, `EXISTSVIOLATED`,
`EXISTSBOTH`. -/
theorem checkSamplePoints_no_universal_verdict (probAt : Valuation → ℚ)
    (prop : Property) (r : ParameterRegion) :
    ((checkSamplePoints probAt prop r).1.checkResult = .EXISTSSAT ∨
     (checkSamplePoints probAt prop r).1.checkResult = .EXISTSVIOLATED ∨
     (checkSamplePoints probAt prop r).1.checkResult = .EXISTSBOTH) ∧
    ∀ pt, (checkPoint probAt prop r pt).1.checkResult = .EXISTSSAT ∨
      (checkPoint probAt prop r pt).1.checkResult = .EXISTSVIOLATED ∨
      (checkPoint probAt prop r pt).1.checkResult = .EXISTSBOTH := by
  constructor
  · exact checkSamplePointsGo_verdict probAt prop (samplePointsOf r) r (by simp [samplePointsOf])
  · exact checkPoint_verdict probAt prop r

/-- Modelled from the spec: the terminal states of the per-region state
machine, `ALLSAT`, `ALLVIOLATED` and `EXISTSBOTH`. -/
def isTerminal (c : RegionCheckResult) : Bool :=
  match c with
  | .ALLSAT => true
  | .ALLVIOLATED => true
  | .EXISTSBOTH => true
  | _ => false

/-- Modelled from the spec: `checkRegion` (body not in the sources), the
escalation orchestrator.  The four tiers are oracles mapping a region to
the updated region together with their conclusiveness flag; they are
invoked in increasing cost order, and a region whose verdict is already
terminal is returned immediately without running any tier. -/
def checkRegion (sampler approx subsmt fullsmt : ParameterRegion → ParameterRegion × Bool)
    (r : ParameterRegion) : ParameterRegion :=
  if isTerminal r.checkResult then r
  else
    let s := sampler r
    if s.2 then s.1
    else
      let a := approx s.1
      if a.2 then a.1
      else
        let q := subsmt a.1
        if q.2 then q.1 else (fullsmt q.1).1

/-- C3: for every region whose verdict is already `ALLSAT` or
`ALLVIOLATED`, invoking `checkRegion` again returns the region unchanged —
in particular the verdict, `satPoint` and `violatedPoint` are untouched —
regardless of what the tiers would do. -/
theorem checkRegion_idempotent_on_terminal
    (sampler approx subsmt fullsmt : ParameterRegion → ParameterRegion × Bool)
    (r : ParameterRegion)
    (h : r.checkResult = .ALLSAT ∨ r.checkResult = .ALLVIOLATED) :
    checkRegion sampler approx subsmt fullsmt r = r ∧
    (checkRegion sampler approx subsmt fullsmt r).checkResult = r.checkResult ∧
    (checkRegion sampler approx subsmt fullsmt r).satPoint = r.satPoint ∧
    (checkRegion sampler approx subsmt fullsmt r).violatedPoint = r.violatedPoint := by
  have hterm : isTerminal r.checkResult = true := by
    rcases h with h | h <;> rw [h] <;> rfl
  rw [checkRegion, if_pos hterm]
  exact ⟨rfl, rfl, rfl, rfl⟩

/-- Witness for C3 at a concrete `ALLSAT` region: re-checking with tiers
that would overwrite everything still returns the region unchanged. -/
theorem checkRegion_idempotent_on_terminal_witness :
    checkRegion (fun x => (x, true)) (fun x => (x, true)) (fun x => (x, true))
        (fun x => (x, true))
        ⟨[0], fun _ => 0, fun _ => 1, .ALLSAT, some [(0, 0)], none⟩ =
      ⟨[0], fun _ => 0, fun _ => 1, .ALLSAT, some [(0, 0)], none⟩ :=
  (checkRegion_idempotent_on_terminal _ _ _ _ _ (Or.inl rfl)).1

/-- Modelled from the spec: the possible answers of the external SMT
solver service for one region query, `sat` with a model assignment,
`unsat`, `unknown`, or a timeout. -/
inductive SmtAnswer where
  | sat (model : Valuation)
  | unsat
  | unknown
  | timeout
  deriving DecidableEq

/-- Modelled from the spec: `checkFullSmt` (body not in the sources).  The
solver's answer to the region query is the oracle argument.  The region's
current verdict should be `EXISTSSAT` or `EXISTSVIOLATED`; the solver is
asked for a point of the missing kind.  An `unsat` answer proves the
universal statement (`ALLSAT`, resp. `ALLVIOLATED`); a `sat` answer yields
a witness point read back from the model, advancing the region to
`EXISTSBOTH`; `unknown` or a timeout leaves the region unchanged.  Returns
whether the solver reached a decisive answer. -/
def checkFullSmt (answer : SmtAnswer) (r : ParameterRegion) : ParameterRegion × Bool :=
  match answer with
  | .unknown => (r, false)
  | .timeout => (r, false)
  | .unsat =>
      if r.checkResult = .EXISTSSAT then ({ r with checkResult := .ALLSAT }, true)
      else ({ r with checkResult := .ALLVIOLATED }, true)
  | .sat m =>
      if r.checkResult = .EXISTSSAT then
        ({ setViolatedPoint r m with checkResult := .EXISTSBOTH }, true)
      else
        ({ setSatPoint r m with checkResult := .EXISTSBOTH }, true)

/-- C7: `checkFullSmt` returns `true` exactly when the solver reached a
decisive `sat`/`unsat` answer and `false` exactly on `unknown` or timeout
(leaving the region unchanged); on `unsat` the verdict becomes a terminal
universal proof, and on `sat` a witness read back from the model is
recorded and the verdict advances to `EXISTSBOTH`. -/
theorem checkFullSmt_decisive (answer : SmtAnswer) (r : ParameterRegion)
    (hpre : r.checkResult = .EXISTSSAT ∨ r.checkResult = .EXISTSVIOLATED) :
    ((checkFullSmt answer r).2 = true ↔ (answer ≠ .unknown ∧ answer ≠ .timeout)) ∧
    ((answer = .unknown ∨ answer = .timeout) → checkFullSmt answer r = (r, false)) ∧
    (answer = .unsat →
      (checkFullSmt answer r).1.checkResult = .ALLSAT ∨
      (checkFullSmt answer r).1.checkResult = .ALLVIOLATED) ∧
    (∀ m, answer = .sat m →
      (checkFullSmt answer r).1.checkResult = .EXISTSBOTH ∧
      (r.checkResult = .EXISTSSAT →
        (checkFullSmt answer r).1.violatedPoint.isSome = true) ∧
      (r.checkResult = .EXISTSVIOLATED →
        (checkFullSmt answer r).1.satPoint.isSome = true)) := by
  refine ⟨?_, ?_, ?_, ?_⟩
  · cases answer <;> simp [checkFullSmt] <;> split <;> simp
  · rintro (rfl | rfl) <;> rfl
  · rintro rfl
    rw [checkFullSmt]
    split
    · exact Or.inl rfl
    · exact Or.inr rfl
  · rintro m rfl
    rw [checkFullSmt]
    rcases hpre with hc | hc
    · rw [if_pos hc]
      exact ⟨rfl, fun _ => setViolatedPoint_violatedPoint_isSome r m,
             fun h => by rw [hc] at h; exact RegionCheckResult.noConfusion h⟩
    · rw [if_neg (by rw [hc]; intro hEq; exact RegionCheckResult.noConfusion hEq)]
      exact ⟨rfl, fun h => by rw [hc] at h; exact RegionCheckResult.noConfusion h,
             fun _ => setSatPoint_satPoint_isSome r m⟩

/-- Witness for C7 at a concrete `EXISTSSAT` region with a `sat` answer:
the query is decisive, the verdict advances to `EXISTSBOTH`, and the
model's point is recorded as the violated witness. -/
theorem checkFullSmt_decisive_witness :
    (checkFullSmt (.sat [(0, 1)])
        ⟨[0], fun _ => 0, fun _ => 1, .EXISTSSAT, some [(0, 0)], none⟩).2 = true ∧
    (checkFullSmt (.sat [(0, 1)])
        ⟨[0], fun _ => 0, fun _ => 1, .EXISTSSAT, some [(0, 0)], none⟩).1.checkResult =
      .EXISTSBOTH :=
  ⟨(checkFullSmt_decisive (.sat [(0, 1)])
      ⟨[0], fun _ => 0, fun _ => 1, .EXISTSSAT, some [(0, 0)], none⟩
      (Or.inl rfl)).1.2 (by simp),
   ((checkFullSmt_decisive (.sat [(0, 1)])
      ⟨[0], fun _ => 0, fun _ => 1, .EXISTSSAT, some [(0, 0)], none⟩
      (Or.inl rfl)).2.2.2 [(0, 1)] rfl).1⟩

/-- Modelled from the spec: a symbolic rational-function expression in the
parameters (the `ParametricType` of the implementation, treated as an
opaque service type there). -/
inductive PExpr where
  | const (q : ℚ)
  | var (p : Nat)
  | add (a b : PExpr)
  | sub (a b : PExpr)
  | mul (a b : PExpr)
  | div (a b : PExpr)
  deriving DecidableEq, Repr

/-- Evaluation of a symbolic expression under a substitution assigning a
constant value to every variable. -/
def PExpr.eval (σ : Nat → ℚ) : PExpr → ℚ
  | .const q => q
  | .var p => σ p
  | .add a b => a.eval σ + b.eval σ
  | .sub a b => a.eval σ - b.eval σ
  | .mul a b => a.eval σ * b.eval σ
  | .div a b => a.eval σ / b.eval σ

/-- Modelled from the spec: the per-property state of the model checker
that `getReachProbFunction` reads and writes — the memoized reachability
expression, the flag `isReachProbFunctionComputed`, and the currently
specified formula. -/
structure CheckerState where
  reachProbFunction : PExpr
  isReachProbFunctionComputed : Bool
  formula : Option Property

/-- Modelled from the spec: `getReachProbFunction` (body not in the
sources).  Lazily triggers full symbolic elimination via the external
service (the oracle `elim`, which may fail), memoizing the result;
repeated calls return the cached expression.  The returned flag records
whether the elimination service was run by this call. -/
def getReachProbFunction (elim : Unit → Option PExpr) (s : CheckerState) :
    Option PExpr × CheckerState × Bool :=
  if s.isReachProbFunctionComputed then (some s.reachProbFunction, s, false)
  else
    match elim () with
    | some e =>
        (some e, { s with reachProbFunction := e, isReachProbFunctionComputed := true }, true)
    | none => (none, s, true)

/-- Modelled from the spec: `specifyFormula` (body not in the sources):
specifying a new property discards all context regarding the old formula,
in particular the cached reachability expression is invalidated. -/
def specifyFormula (f : Property) (s : CheckerState) : CheckerState :=
  { s with formula := some f, isReachProbFunctionComputed := false }

/-- C8: once `getReachProbFunction` has successfully computed the
reachability-probability expression, every subsequent call returns the
same cached expression with the state unchanged and without re-running the
elimination service (whatever that service would now answer), while
specifying a new property invalidates the cache. -/
theorem getReachProbFunction_cached (elim₁ elim₂ : Unit → Option PExpr)
    (s s₁ : CheckerState) (e : PExpr) (ran : Bool) (f : Property)
    (h : getReachProbFunction elim₁ s = (some e, s₁, ran)) :
    getReachProbFunction elim₂ s₁ = (some e, s₁, false) ∧
    (specifyFormula f s₁).isReachProbFunctionComputed = false := by
  rw [getReachProbFunction] at h
  by_cases hc : s.isReachProbFunctionComputed
  · rw [if_pos hc] at h
    simp only [Prod.mk.injEq, Option.some.injEq] at h
    obtain ⟨he, hs, -⟩ := h
    subst hs
    rw [getReachProbFunction, if_pos hc, he]
    exact ⟨rfl, rfl⟩
  · rw [if_neg hc] at h
    cases helim : elim₁ () with
    | some e' =>
        rw [helim] at h
        simp only [Prod.mk.injEq, Option.some.injEq] at h
        obtain ⟨he, hs, -⟩ := h
        subst he
        rw [← hs, getReachProbFunction]
        simp [specifyFormula]
    | none =>
        rw [helim] at h
        simp at h

/-- Witness for C8: a first call computes and caches the constant
expression `1`; the second call, given a service that would now answer
differently, still returns the cached expression without running it. -/
theorem getReachProbFunction_cached_witness :
    getReachProbFunction (fun _ => some (.const 1))
        ⟨.const 0, false, none⟩ = (some (.const 1), ⟨.const 1, true, none⟩, true) ∧
    (getReachProbFunction (fun _ => some (.const 5)) ⟨.const 1, true, none⟩ =
        (some (.const 1), ⟨.const 1, true, none⟩, false) ∧
     (specifyFormula ⟨1 / 2, false⟩ ⟨.const 1, true, none⟩).isReachProbFunctionComputed = false) :=
  ⟨rfl, getReachProbFunction_cached (fun _ => some (.const 1)) (fun _ => some (.const 5))
      ⟨.const 0, false, none⟩ ⟨.const 1, true, none⟩ (.const 1) true ⟨1 / 2, false⟩ rfl⟩

/-- A flexible sparse matrix: one list of (column, symbolic entry) pairs
per row. -/
abbrev FlexibleMatrix := List (List (Nat × PExpr))

/-- The number of set bits of a row filter (`filter.getNumberOfSetBits()`),
i.e. the number of selected states. -/
def numberOfSetBits (filter : List Bool) : Nat := filter.count true

/-- The new index of a selected old column: the number of selected states
preceding it. -/
def newIndexOf (filter : List Bool) (j : Nat) : Nat := (filter.take j).count true

/-- The indices of the selected rows, in order. -/
def selectedIndices (filter : List Bool) : List Nat :=
  (List.range filter.length).filter fun i => filter.getD i false

/-- The total probability mass of an instantiated row. -/
def rowSumOf (entries : List (Nat × ℚ)) : ℚ := (entries.map Prod.snd).sum

/-- Whether some filter-selected row of the flexible matrix has a
transition to a state not selected by the filter. -/
def hasForbiddenTransition (matrix : FlexibleMatrix) (filter : List Bool) : Bool :=
  (List.range matrix.length).any fun i =>
    filter.getD i false && (matrix.getD i []).any fun e => ! filter.getD e.1 false

/-- The result of instantiating a flexible matrix: one row group per
selected state (one row per substitution, with constant entries), plus the
distinguished target and sink states. -/
structure InstantiatedMdp where
  rowGroups : List (List (List (Nat × ℚ)))
  targetState : Nat
  sinkState : Nat
  numberOfStates : Nat

/-- Modelled from the spec and the header documentation of
`instantiateFlexibleMatrix` (body not in the sources).  Evaluates the
selected rows of the flexible matrix under every given substitution; one
selected row becomes one row group of the returned MDP matrix.  An
exception is raised if there is a transition from a selected state to an
unselected state.  A new target state absorbs the one-step probability of
each row, and the missing probability of each row is redirected to a new
sink state; by convention the target state has index
`filter.getNumberOfSetBits()` and the sink state is the state with the
highest index, right after the target state. -/
def instantiateFlexibleMatrix (matrix : FlexibleMatrix) (substitutions : List (Nat → ℚ))
    (filter : List Bool) (oneStepProbabilities : List PExpr) :
    Except String InstantiatedMdp :=
  if hasForbiddenTransition matrix filter then
    .error "transition from a selected state to an unselected state"
  else
    let k := numberOfSetBits filter
    .ok { rowGroups := (selectedIndices filter).map fun i =>
            substitutions.map fun σ =>
              let base := (matrix.getD i []).map fun e => (newIndexOf filter e.1, e.2.eval σ)
              let withTarget := base ++ [(k, (oneStepProbabilities.getD i (.const 0)).eval σ)]
              withTarget ++ [(k + 1, 1 - rowSumOf withTarget)]
          targetState := k
          sinkState := k + 1
          numberOfStates := k + 2 }

theorem hasForbiddenTransition_iff (matrix : FlexibleMatrix) (filter : List Bool) :
    hasForbiddenTransition matrix filter = true ↔
      ∃ i ∈ List.range matrix.length, filter.getD i false = true ∧
        ∃ e ∈ matrix.getD i [], filter.getD e.1 false = false := by
  simp [hasForbiddenTransition, List.any_eq_true, Bool.and_eq_true, Bool.not_eq_true']

/-- C10: `instantiateFlexibleMatrix` raises an exception whenever some
filter-selected row contains a transition to a state not selected by the
filter; otherwise it succeeds and the added target state has index equal
to the number of set bits of the filter while the added sink state has the
highest index, immediately after the target state. -/
theorem instantiateFlexibleMatrix_spec (matrix : FlexibleMatrix)
    (substitutions : List (Nat → ℚ)) (filter : List Bool)
    (oneStepProbabilities : List PExpr) :
    ((∃ i ∈ List.range matrix.length, filter.getD i false = true ∧
        ∃ e ∈ matrix.getD i [], filter.getD e.1 false = false) →
      instantiateFlexibleMatrix matrix substitutions filter oneStepProbabilities =
        .error "transition from a selected state to an unselected state") ∧
    ((¬ ∃ i ∈ List.range matrix.length, filter.getD i false = true ∧
        ∃ e ∈ matrix.getD i [], filter.getD e.1 false = false) →
      ∃ res, instantiateFlexibleMatrix matrix substitutions filter oneStepProbabilities =
          .ok res ∧
        res.targetState = numberOfSetBits filter ∧
        res.sinkState = numberOfSetBits filter + 1 ∧
        res.numberOfStates = numberOfSetBits filter + 2 ∧
        res.sinkState + 1 = res.numberOfStates) := by
  constructor
  · intro h
    rw [instantiateFlexibleMatrix,
      if_pos ((hasForbiddenTransition_iff matrix filter).2 h)]
  · intro h
    rw [instantiateFlexibleMatrix, if_neg (fun hb =>
      h ((hasForbiddenTransition_iff matrix filter).1 hb))]
    exact ⟨_, rfl, rfl, rfl, rfl, rfl⟩

/-- Witness for C10: a selected row with a transition to an unselected
column raises the exception, while a well-filtered two-state matrix is
instantiated with target index `2` and sink index `3`, the highest. -/
theorem instantiateFlexibleMatrix_spec_witness :
    (instantiateFlexibleMatrix [[(1, .const 1)]] [fun _ => 1] [true, false] [] =
      .error "transition from a selected state to an unselected state") ∧
    (∃ res, instantiateFlexibleMatrix [[(0, .var 0)], [(1, .const 1)]]
        [fun _ => 1] [true, true] [.const 0, .const 0] = .ok res ∧
      res.targetState = numberOfSetBits [true, true] ∧
      res.sinkState = numberOfSetBits [true, true] + 1 ∧
      res.numberOfStates = numberOfSetBits [true, true] + 2 ∧
      res.sinkState + 1 = res.numberOfStates) :=
  ⟨(instantiateFlexibleMatrix_spec [[(1, .const 1)]] [fun _ => 1] [true, false] []).1
      (by decide),
   (instantiateFlexibleMatrix_spec [[(0, .var 0)], [(1, .const 1)]]
      [fun _ => 1] [true, true] [.const 0, .const 0]).2 (by decide)⟩

/-- A concrete parameter point (as a total assignment) lies inside the
region: every parameter is between its lower and its upper bound. -/
def inRegion (vars : List Nat) (lb ub : Nat → ℚ) (v : Nat → ℚ) : Prop :=
  ∀ p ∈ vars, lb p ≤ v p ∧ v p ≤ ub p

/-- The expected value of one step: the dot product of a probability row
with a value vector. -/
def dot {n : Nat} (c x : Fin n → ℚ) : ℚ := ∑ t, c t * x t

/-- The minimum of a nonempty collection of rationals, given as a first
element and the list of the remaining ones. -/
def listMin (a : ℚ) (l : List ℚ) : ℚ := l.foldl min a

/-- The maximum of a nonempty collection of rationals, given as a first
element and the list of the remaining ones. -/
def listMax (a : ℚ) (l : List ℚ) : ℚ := l.foldl max a

/-- The minimal one-step expected value over a list of choice rows (the
minimizing strategy's choice at one state of the bounding MDP). -/
def minOver {n : Nat} (l : List (Fin n → ℚ)) (x : Fin n → ℚ) : ℚ :=
  match l with
  | [] => 0
  | c :: cs => listMin (dot c x) (cs.map fun d => dot d x)

/-- The maximal one-step expected value over a list of choice rows (the
maximizing strategy's choice at one state of the bounding MDP). -/
def maxOver {n : Nat} (l : List (Fin n → ℚ)) (x : Fin n → ℚ) : ℚ :=
  match l with
  | [] => 0
  | c :: cs => listMax (dot c x) (cs.map fun d => dot d x)

/-- Modelled from the spec: the standard minimal reachability-probability
computation (value iteration) on the bounding MDP whose available numeric
choices at each state are given by `choices`. -/
def mdpMinVal {n : Nat} (choices : Fin n → List (Fin n → ℚ)) (target : Fin n → Bool) :
    Nat → Fin n → ℚ
  | 0, s => if target s then 1 else 0
  | k + 1, s => if target s then 1 else minOver (choices s) (mdpMinVal choices target k)

/-- Modelled from the spec: the standard maximal reachability-probability
computation (value iteration) on the bounding MDP. -/
def mdpMaxVal {n : Nat} (choices : Fin n → List (Fin n → ℚ)) (target : Fin n → Bool) :
    Nat → Fin n → ℚ
  | 0, s => if target s then 1 else 0
  | k + 1, s => if target s then 1 else maxOver (choices s) (mdpMaxVal choices target k)

/-- Modelled from the spec: the true reachability probability of the
parametric model instantiated at the point `v` (value iteration of the
concrete DTMC whose row at state `s` is `prow s v`). -/
def dtmcVal {n : Nat} (prow : Fin n → (Nat → ℚ) → Fin n → ℚ) (target : Fin n → Bool)
    (v : Nat → ℚ) : Nat → Fin n → ℚ
  | 0, s => if target s then 1 else 0
  | k + 1, s => if target s then 1 else dot (prow s v) (dtmcVal prow target v k)

theorem listMin_le_init : ∀ (l : List ℚ) (a : ℚ), listMin a l ≤ a := by
  intro l
  induction l with
  | nil => intro a; exact le_refl a
  | cons c cs ih =>
      intro a
      calc listMin a (c :: cs) = listMin (min a c) cs := rfl
        _ ≤ min a c := ih _
        _ ≤ a := min_le_left _ _

theorem listMin_le_mem : ∀ (l : List ℚ) (a q : ℚ), q ∈ l → listMin a l ≤ q := by
  intro l
  induction l with
  | nil => intro a q h; exact absurd h (List.not_mem_nil q)
  | cons c cs ih =>
      intro a q h
      rcases List.mem_cons.1 h with rfl | h'
      · calc listMin a (q :: cs) = listMin (min a q) cs := rfl
          _ ≤ min a q := listMin_le_init cs _
          _ ≤ q := min_le_right _ _
      · exact ih (min a c) q h'

theorem le_listMin : ∀ (l : List ℚ) (a b : ℚ), b ≤ a → (∀ q ∈ l, b ≤ q) → b ≤ listMin a l := by
  intro l
  induction l with
  | nil => intro a b h _; exact h
  | cons c cs ih =>
      intro a b h hq
      exact ih (min a c) b (le_min h (hq c (List.mem_cons_self c cs)))
        fun q hq' => hq q (List.mem_cons_of_mem c hq')

theorem init_le_listMax : ∀ (l : List ℚ) (a : ℚ), a ≤ listMax a l := by
  intro l
  induction l with
  | nil => intro a; exact le_refl a
  | cons c cs ih =>
      intro a
      calc a ≤ max a c := le_max_left _ _
        _ ≤ listMax (max a c) cs := ih _
        _ = listMax a (c :: cs) := rfl

theorem mem_le_listMax : ∀ (l : List ℚ) (a q : ℚ), q ∈ l → q ≤ listMax a l := by
  intro l
  induction l with
  | nil => intro a q h; exact absurd h (List.not_mem_nil q)
  | cons c cs ih =>
      intro a q h
      rcases List.mem_cons.1 h with rfl | h'
      · calc q ≤ max a q := le_max_right _ _
          _ ≤ listMax (max a q) cs := init_le_listMax cs _
          _ = listMax a (q :: cs) := rfl
      · exact ih (max a c) q h'

theorem listMax_le : ∀ (l : List ℚ) (a b : ℚ), a ≤ b → (∀ q ∈ l, q ≤ b) → listMax a l ≤ b := by
  intro l
  induction l with
  | nil => intro a b h _; exact h
  | cons c cs ih =>
      intro a b h hq
      exact ih (max a c) b (max_le h (hq c (List.mem_cons_self c cs)))
        fun q hq' => hq q (List.mem_cons_of_mem c hq')

theorem minOver_le_dot {n : Nat} (l : List (Fin n → ℚ)) (x c : Fin n → ℚ) (hc : c ∈ l) :
    minOver l x ≤ dot c x := by
  cases l with
  | nil => exact absurd hc (List.not_mem_nil c)
  | cons c₀ cs =>
      rcases List.mem_cons.1 hc with rfl | h'
      · exact listMin_le_init _ _
      · exact listMin_le_mem _ _ _ (List.mem_map_of_mem (fun d => dot d x) h')

theorem le_minOver {n : Nat} (l : List (Fin n → ℚ)) (x : Fin n → ℚ) (b : ℚ)
    (hl : l ≠ []) (h : ∀ c ∈ l, b ≤ dot c x) : b ≤ minOver l x := by
  cases l with
  | nil => exact absurd rfl hl
  | cons c₀ cs =>
      refine le_listMin _ _ _ (h c₀ (List.mem_cons_self c₀ cs)) ?_
      intro q hq
      obtain ⟨d, hd, rfl⟩ := List.mem_map.1 hq
      exact h d (List.mem_cons_of_mem c₀ hd)

theorem dot_le_maxOver {n : Nat} (l : List (Fin n → ℚ)) (x c : Fin n → ℚ) (hc : c ∈ l) :
    dot c x ≤ maxOver l x := by
  cases l with
  | nil => exact absurd hc (List.not_mem_nil c)
  | cons c₀ cs =>
      rcases List.mem_cons.1 hc with rfl | h'
      · exact init_le_listMax _ _
      · exact mem_le_listMax _ _ _ (List.mem_map_of_mem (fun d => dot d x) h')

theorem maxOver_le {n : Nat} (l : List (Fin n → ℚ)) (x : Fin n → ℚ) (b : ℚ)
    (hl : l ≠ []) (h : ∀ c ∈ l, dot c x ≤ b) : maxOver l x ≤ b := by
  cases l with
  | nil => exact absurd rfl hl
  | cons c₀ cs =>
      refine listMax_le _ _ _ (h c₀ (List.mem_cons_self c₀ cs)) ?_
      intro q hq
      obtain ⟨d, hd, rfl⟩ := List.mem_map.1 hq
      exact h d (List.mem_cons_of_mem c₀ hd)

theorem dot_nonneg {n : Nat} (c x : Fin n → ℚ) (hc : ∀ t, 0 ≤ c t) (hx : ∀ t, 0 ≤ x t) :
    0 ≤ dot c x :=
  Finset.sum_nonneg fun t _ => mul_nonneg (hc t) (hx t)

theorem dot_le_one {n : Nat} (c x : Fin n → ℚ) (hc : ∀ t, 0 ≤ c t)
    (hsum : ∑ t, c t ≤ 1) (hx1 : ∀ t, x t ≤ 1) : dot c x ≤ 1 :=
  le_trans (Finset.sum_le_sum fun t _ => mul_le_of_le_one_right (hc t) (hx1 t)) hsum

theorem dot_mono {n : Nat} (c x y : Fin n → ℚ) (hc : ∀ t, 0 ≤ c t)
    (hxy : ∀ t, x t ≤ y t) : dot c x ≤ dot c y :=
  Finset.sum_le_sum fun t _ => mul_le_mul_of_nonneg_left (hxy t) (hc t)

theorem minOver_mono {n : Nat} (l : List (Fin n → ℚ)) (x y : Fin n → ℚ) (hl : l ≠ [])
    (hc : ∀ c ∈ l, ∀ t, 0 ≤ c t) (hxy : ∀ t, x t ≤ y t) : minOver l x ≤ minOver l y :=
  le_minOver l y _ hl fun c hcl =>
    le_trans (minOver_le_dot l x c hcl) (dot_mono c x y (hc c hcl) hxy)

theorem maxOver_mono {n : Nat} (l : List (Fin n → ℚ)) (x y : Fin n → ℚ) (hl : l ≠ [])
    (hc : ∀ c ∈ l, ∀ t, 0 ≤ c t) (hxy : ∀ t, x t ≤ y t) : maxOver l x ≤ maxOver l y :=
  maxOver_le l x _ hl fun c hcl =>
    le_trans (dot_mono c x y (hc c hcl) hxy) (dot_le_maxOver l y c hcl)

theorem dtmcVal_nonneg {n : Nat} (prow : Fin n → (Nat → ℚ) → Fin n → ℚ)
    (target : Fin n → Bool) (v : Nat → ℚ) (hp : ∀ s t, 0 ≤ prow s v t) :
    ∀ (k : Nat) (s : Fin n), 0 ≤ dtmcVal prow target v k s := by
  intro k
  induction k with
  | zero => intro s; rw [dtmcVal]; split <;> norm_num
  | succ k ih =>
      intro s
      rw [dtmcVal]
      split
      · norm_num
      · exact dot_nonneg _ _ (hp s) ih

theorem dtmcVal_le_one {n : Nat} (prow : Fin n → (Nat → ℚ) → Fin n → ℚ)
    (target : Fin n → Bool) (v : Nat → ℚ) (hp : ∀ s t, 0 ≤ prow s v t)
    (hsum : ∀ s, ∑ t, prow s v t ≤ 1) :
    ∀ (k : Nat) (s : Fin n), dtmcVal prow target v k s ≤ 1 := by
  intro k
  induction k with
  | zero => intro s; rw [dtmcVal]; split <;> norm_num
  | succ k ih =>
      intro s
      rw [dtmcVal]
      split
      · norm_num
      · exact dot_le_one _ _ (hp s) (hsum s) ih

/-- Soundness of the bounding model: when the choices of the bounding MDP
dominate the instantiated rows of the model at `v`, the minimal solved
value is a lower bound and the maximal solved value is an upper bound on
the true reachability probability at `v`, at every state and every
value-iteration depth. -/
theorem mdp_bounds {n : Nat} (prow : Fin n → (Nat → ℚ) → Fin n → ℚ)
    (choices : Fin n → List (Fin n → ℚ)) (target : Fin n → Bool) (v : Nat → ℚ)
    (hne : ∀ s, choices s ≠ [])
    (hcNN : ∀ s, ∀ c ∈ choices s, ∀ t, 0 ≤ c t)
    (hp : ∀ s t, 0 ≤ prow s v t) (hsum : ∀ s, ∑ t, prow s v t ≤ 1)
    (hdom : ∀ s, target s = false → ∀ x : Fin n → ℚ,
      (∀ t, 0 ≤ x t) → (∀ t, x t ≤ 1) →
      minOver (choices s) x ≤ dot (prow s v) x ∧ dot (prow s v) x ≤ maxOver (choices s) x) :
    ∀ (k : Nat) (s : Fin n),
      mdpMinVal choices target k s ≤ dtmcVal prow target v k s ∧
      dtmcVal prow target v k s ≤ mdpMaxVal choices target k s := by
  intro k
  induction k with
  | zero =>
      intro s
      rw [mdpMinVal, mdpMaxVal, dtmcVal]
      exact ⟨le_refl _, le_refl _⟩
  | succ k ih =>
      intro s
      rw [mdpMinVal, mdpMaxVal, dtmcVal]
      by_cases hts : target s
      · simp only [if_pos hts]
        exact ⟨le_refl _, le_refl _⟩
      · simp only [if_neg hts]
        have hxNN := dtmcVal_nonneg prow target v hp k
        have hx1 := dtmcVal_le_one prow target v hp hsum k
        have hd := hdom s (Bool.not_eq_true _ ▸ hts) (dtmcVal prow target v k) hxNN hx1
        constructor
        · exact le_trans
            (minOver_mono (choices s) _ _ (hne s) (hcNN s) fun t => (ih t).1) hd.1
        · exact le_trans hd.2
            (maxOver_mono (choices s) _ _ (hne s) (hcNN s) fun t => (ih t).2)

/-- Modelled from the spec: `checkApproximativeProbabilities` (body not in
the sources).  `solveMin` and `solveMax` are the per-state bound vectors
the external minimal/maximal reachability solver would produce on the
bounding MDP; the caller passes two empty bound vectors and the function
returns their final contents as the last two components.  Only the
direction(s) needed are solved: with a sat point already known only
`ALLSAT` can still be proved, so only the minimizing solve runs (the upper
bound vector is left empty); with a violated point already known only the
maximizing solve runs (the lower bound vector is left empty); otherwise
the minimizing solve runs first and the maximizing solve only if the
first was inconclusive.  If the sound lower bound (the minimal solved
value at the initial state) satisfies the threshold the verdict is set to
`ALLSAT`; if the sound upper bound violates it the verdict is set to
`ALLVIOLATED`.  Returns whether such a conclusive bound was found. -/
def checkApproximativeProbabilities (prop : Property) (initState : Nat)
    (solveMin solveMax : List ℚ) (r : ParameterRegion) :
    ParameterRegion × Bool × List ℚ × List ℚ :=
  if r.checkResult = .EXISTSSAT then
    if valueIsInBoundOfFormula prop (solveMin.getD initState 0) then
      ({ r with checkResult := .ALLSAT }, true, solveMin, [])
    else (r, false, solveMin, [])
  else if r.checkResult = .EXISTSVIOLATED then
    if ! valueIsInBoundOfFormula prop (solveMax.getD initState 0) then
      ({ r with checkResult := .ALLVIOLATED }, true, [], solveMax)
    else (r, false, [], solveMax)
  else
    if valueIsInBoundOfFormula prop (solveMin.getD initState 0) then
      ({ r with checkResult := .ALLSAT }, true, solveMin, [])
    else if ! valueIsInBoundOfFormula prop (solveMax.getD initState 0) then
      ({ r with checkResult := .ALLVIOLATED }, true, solveMin, solveMax)
    else (r, false, solveMin, solveMax)

/-- The verdict and return-value behavior of
`checkApproximativeProbabilities`, separated from the soundness of the
bounds. -/
theorem checkApprox_behavior (prop : Property) (initState : Nat)
    (solveMin solveMax : List ℚ) (r : ParameterRegion)
    (hr : r.checkResult ≠ .ALLSAT ∧ r.checkResult ≠ .ALLVIOLATED) :
    (valueIsInBoundOfFormula prop (solveMin.getD initState 0) = true →
      r.checkResult ≠ .EXISTSVIOLATED →
      (checkApproximativeProbabilities prop initState solveMin solveMax r).1.checkResult =
        .ALLSAT ∧
      (checkApproximativeProbabilities prop initState solveMin solveMax r).2.1 = true) ∧
    (valueIsInBoundOfFormula prop (solveMin.getD initState 0) = false →
      valueIsInBoundOfFormula prop (solveMax.getD initState 0) = false →
      r.checkResult ≠ .EXISTSSAT →
      (checkApproximativeProbabilities prop initState solveMin solveMax r).1.checkResult =
        .ALLVIOLATED ∧
      (checkApproximativeProbabilities prop initState solveMin solveMax r).2.1 = true) ∧
    ((checkApproximativeProbabilities prop initState solveMin solveMax r).2.1 = true ↔
      ((checkApproximativeProbabilities prop initState solveMin solveMax r).1.checkResult =
          .ALLSAT ∨
       (checkApproximativeProbabilities prop initState solveMin solveMax r).1.checkResult =
          .ALLVIOLATED)) := by
  obtain ⟨hrs, hrv⟩ := hr
  unfold checkApproximativeProbabilities
  split_ifs with h1 h2 h3 h4 h5 h6 <;>
    refine ⟨fun hmin hne => ?_, fun hmin hmax hne => ?_, ?_⟩ <;>
    simp_all

/-- C6: whenever `checkApproximativeProbabilities` only needs the
lower-bound (resp. upper-bound) solve — because only `ALLSAT`
(resp. `ALLVIOLATED`) can still be proved, or because the lower-bound
solve alone already proves `ALLSAT` — the other bound vector passed by the
caller is left completely untouched (it remains empty). -/
theorem checkApproximativeProbabilities_frame (prop : Property) (initState : Nat)
    (solveMin solveMax : List ℚ) (r : ParameterRegion) :
    (r.checkResult = .EXISTSSAT →
      (checkApproximativeProbabilities prop initState solveMin solveMax r).2.2.2 = []) ∧
    (r.checkResult = .EXISTSVIOLATED →
      (checkApproximativeProbabilities prop initState solveMin solveMax r).2.2.1 = []) ∧
    (r.checkResult ≠ .EXISTSSAT → r.checkResult ≠ .EXISTSVIOLATED →
      valueIsInBoundOfFormula prop (solveMin.getD initState 0) = true →
      (checkApproximativeProbabilities prop initState solveMin solveMax r).2.2.2 = []) := by
  unfold checkApproximativeProbabilities
  refine ⟨fun h => ?_, fun h => ?_, fun h1 h2 hmin => ?_⟩ <;>
    split_ifs <;> simp_all

/-- Witness for C6 at two concrete regions: with a sat point known the
upper bound vector stays empty, with a violated point known the lower
bound vector stays empty. -/
theorem checkApproximativeProbabilities_frame_witness :
    (checkApproximativeProbabilities ⟨0, false⟩ 0 [1] [1]
        ⟨[0], fun _ => 0, fun _ => 1, .EXISTSSAT, some [(0, 0)], none⟩).2.2.2 = [] ∧
    (checkApproximativeProbabilities ⟨0, false⟩ 0 [1] [1]
        ⟨[0], fun _ => 0, fun _ => 1, .EXISTSVIOLATED, none, some [(0, 0)]⟩).2.2.1 = [] :=
  ⟨(checkApproximativeProbabilities_frame ⟨0, false⟩ 0 [1] [1]
      ⟨[0], fun _ => 0, fun _ => 1, .EXISTSSAT, some [(0, 0)], none⟩).1 rfl,
   (checkApproximativeProbabilities_frame ⟨0, false⟩ 0 [1] [1]
      ⟨[0], fun _ => 0, fun _ => 1, .EXISTSVIOLATED, none, some [(0, 0)]⟩).2.1 rfl⟩

/-- C1: for every region and property, the approximation tier's minimal
solved value is a lower bound and its maximal solved value is an upper
bound on the true reachability probability at every parameter point
inside the region (for every value-iteration depth `k`); consequently,
when `checkApproximativeProbabilities` finds that the sound lower bound
satisfies the threshold it sets the region's verdict to `ALLSAT`, when the
sound upper bound violates the threshold it sets the verdict to
`ALLVIOLATED`, and it returns whether such a conclusive bound was found.
The bounding model's choices dominate every achievable instantiation
inside the region (`hdom`), the instantiated rows are substochastic
(`hstoch`), and the tier only runs on regions without a universal verdict
(`hr`). -/
theorem checkApproximativeProbabilities_sound {n : Nat}
    (prow : Fin n → (Nat → ℚ) → Fin n → ℚ) (choices : Fin n → List (Fin n → ℚ))
    (target : Fin n → Bool) (vars : List Nat) (lb ub : Nat → ℚ) (v : Nat → ℚ)
    (init : Fin n) (prop : Property) (r : ParameterRegion) (k : Nat)
    (solveMin solveMax : List ℚ)
    (hne : ∀ s, choices s ≠ [])
    (hcNN : ∀ s, ∀ c ∈ choices s, ∀ t, 0 ≤ c t)
    (hstoch : ∀ w, inRegion vars lb ub w →
      (∀ s t, 0 ≤ prow s w t) ∧ (∀ s, ∑ t, prow s w t ≤ 1))
    (hdom : ∀ w, inRegion vars lb ub w → ∀ s, target s = false →
      ∀ x : Fin n → ℚ, (∀ t, 0 ≤ x t) → (∀ t, x t ≤ 1) →
        minOver (choices s) x ≤ dot (prow s w) x ∧
        dot (prow s w) x ≤ maxOver (choices s) x)
    (hv : inRegion vars lb ub v)
    (hsolveMin : solveMin.getD init.val 0 = mdpMinVal choices target k init)
    (hsolveMax : solveMax.getD init.val 0 = mdpMaxVal choices target k init)
    (hr : r.checkResult ≠ .ALLSAT ∧ r.checkResult ≠ .ALLVIOLATED) :
    (mdpMinVal choices target k init ≤ dtmcVal prow target v k init ∧
     dtmcVal prow target v k init ≤ mdpMaxVal choices target k init) ∧
    (valueIsInBoundOfFormula prop (mdpMinVal choices target k init) = true →
      r.checkResult ≠ .EXISTSVIOLATED →
      (checkApproximativeProbabilities prop init.val solveMin solveMax r).1.checkResult =
        .ALLSAT ∧
      (checkApproximativeProbabilities prop init.val solveMin solveMax r).2.1 = true) ∧
    (valueIsInBoundOfFormula prop (mdpMinVal choices target k init) = false →
      valueIsInBoundOfFormula prop (mdpMaxVal choices target k init) = false →
      r.checkResult ≠ .EXISTSSAT →
      (checkApproximativeProbabilities prop init.val solveMin solveMax r).1.checkResult =
        .ALLVIOLATED ∧
      (checkApproximativeProbabilities prop init.val solveMin solveMax r).2.1 = true) ∧
    ((checkApproximativeProbabilities prop init.val solveMin solveMax r).2.1 = true ↔
      ((checkApproximativeProbabilities prop init.val solveMin solveMax r).1.checkResult =
          .ALLSAT ∨
       (checkApproximativeProbabilities prop init.val solveMin solveMax r).1.checkResult =
          .ALLVIOLATED)) := by
  obtain ⟨hpNN, hpSum⟩ := hstoch v hv
  have hbounds := mdp_bounds prow choices target v hne hcNN hpNN hpSum
    (fun s hs => hdom v hv s hs) k init
  have hbeh := checkApprox_behavior prop init.val solveMin solveMax r hr
  rw [hsolveMin, hsolveMax] at hbeh
  exact ⟨hbounds, hbeh.1, hbeh.2.1, hbeh.2.2⟩

/-- Witness for C1 at a concrete one-state model (the state is the
target), a point region fixing the single parameter at `0`, an `UNKNOWN`
region and threshold `0`: the bounds hold and the minimizing solve proves
`ALLSAT`. -/
theorem checkApproximativeProbabilities_sound_witness :
    (mdpMinVal ((fun _ => [fun _ => (1 : ℚ)]) : Fin 1 → List (Fin 1 → ℚ))
        (fun _ => true) 1 0 ≤
      dtmcVal ((fun _ _ _ => (1 : ℚ)) : Fin 1 → (Nat → ℚ) → Fin 1 → ℚ)
        (fun _ => true) (fun _ => 0) 1 0) ∧
    (checkApproximativeProbabilities ⟨0, false⟩ 0 [1] [1]
        ⟨[0], fun _ => 0, fun _ => 0, .UNKNOWN, none, none⟩).1.checkResult = .ALLSAT := by
  have h := checkApproximativeProbabilities_sound
    ((fun _ _ _ => (1 : ℚ)) : Fin 1 → (Nat → ℚ) → Fin 1 → ℚ)
    ((fun _ => [fun _ => (1 : ℚ)]) : Fin 1 → List (Fin 1 → ℚ))
    (fun _ => true) [0] (fun _ => 0) (fun _ => 0) (fun _ => 0)
    0 ⟨0, false⟩ ⟨[0], fun _ => 0, fun _ => 0, .UNKNOWN, none, none⟩ 1 [1] [1]
    (fun _ => by simp)
    (by
      intro s c hc t
      rw [List.mem_singleton] at hc
      subst hc
      norm_num)
    (by
      intro w _
      refine ⟨fun _ _ => by norm_num, fun s => ?_⟩
      simp)
    (by
      intro w _ s hs
      simp at hs)
    (by
      intro p _
      exact ⟨le_refl 0, le_refl 0⟩)
    (by decide) (by decide) ⟨by decide, by decide⟩
  exact ⟨h.1.1, (h.2.1 (by decide) (by decide)).1⟩

end StormRegion
